import Mathlib

/-!
GradReader — formal model of the story-generation utilities.

A shallow embedding of the GradReader repository (a Streamlit app that
generates graded-reading stories via hosted AI APIs).  Python strings are
modelled as `List Char`; the stateful/external parts (the OpenAI client,
`json.loads`, FPDF's `multi_cell`, `zipfile`) are modelled as explicit
oracles or parameters, while all logic written in the repository itself is
translated function-by-function from the source.
-/

namespace GradReader

/-! ## Python string primitives

`str.strip`, `str.split`, `str.find`/`rfind` and the `re.sub(r"\s+", " ", ·)`
whitespace-collapse used by the repository, modelled on `List Char`.
`pyIsSpace` covers the ASCII whitespace characters recognised by both
Python's `str.strip` and the regex class `\s` (the additional Unicode
space code points behave identically and never appear in the repository's
string literals). -/

def pyIsSpace (c : Char) : Bool :=
  c = ' ' || c = '\t' || c = '\n' || c = '\r' || c = Char.ofNat 11 || c = Char.ofNat 12

/-- Python `str.lstrip()`. -/
def pyLStrip (l : List Char) : List Char := l.dropWhile pyIsSpace

/-- Python `str.rstrip()`. -/
def pyRStrip (l : List Char) : List Char := (l.reverse.dropWhile pyIsSpace).reverse

/-- Python `str.strip()`. -/
def pyStrip (l : List Char) : List Char := pyRStrip (pyLStrip l)

/-- Python `str.split(sep)` for a one-character separator: `"".split(sep)`
is `[""]`, and empty chunks between consecutive separators are kept. -/
def pySplit (sep : Char) : List Char → List (List Char)
  | [] => [[]]
  | c :: rest =>
    match pySplit sep rest with
    | [] => [[c]]
    | g :: gs => if c = sep then [] :: g :: gs else (c :: g) :: gs

/-- Model of `re.sub(r"\s+", " ", chunk)`: every maximal run of whitespace characters
is replaced by a single space.  The merge with the head of the recursive
result implements exactly the maximal-run semantics of the regex. -/
def collapseWS : List Char → List Char
  | [] => []
  | c :: rest =>
    let r := collapseWS rest
    if pyIsSpace c then
      if r.head? = some ' ' then r else ' ' :: r
    else c :: r

/-! ## `utils/validators.py` -/

/-- Model of `_ALLOWED_LEVEL_SCHEMAS["CEFR"]`. -/
def CEFR_LEVELS : List String := ["A1", "A2", "B1", "B2", "C1", "C2"]

/-- Model of `_ALLOWED_LEVEL_SCHEMAS["HSK"]`. -/
def HSK_LEVELS : List String := ["1", "2", "3", "4", "5", "6"]

/-- Model of `_ALLOWED_LEVEL_SCHEMAS["General"]`. -/
def GENERAL_LEVELS : List String := ["Beginner", "Elementary", "Intermediate", "Advanced"]

/-- The `_ALLOWED_LEVEL_SCHEMAS` dict of `utils/validators.py`, as an
association list (insertion order preserved, as in a Python dict). -/
def ALLOWED_LEVEL_SCHEMAS : List (String × List String) :=
  [("CEFR", CEFR_LEVELS), ("HSK", HSK_LEVELS), ("General", GENERAL_LEVELS)]

/-- The 12-entry `_ALLOWED_LANGUAGES` list of `utils/validators.py`. -/
def ALLOWED_LANGUAGES : List String :=
  ["en", "es", "fr", "de", "it", "pt", "ru", "zh", "ja", "ko", "ar", "hi"]

/-- Python dict lookup `_ALLOWED_LEVEL_SCHEMAS.get(schema)` (no default). -/
def schemaLookup (schema : String) : Option (List String) :=
  (ALLOWED_LEVEL_SCHEMAS.find? (fun kv => kv.1 == schema)).map (·.2)

/-- Model of `allowed_levels` from `utils/validators.py`:
`_ALLOWED_LEVEL_SCHEMAS.get(schema, _ALLOWED_LEVEL_SCHEMAS["CEFR"])`.
(The `st.cache_data` decorator only memoises and does not change the
function's value.) -/
def allowed_levels (schema : String) : List String :=
  (schemaLookup schema).getD CEFR_LEVELS

/-- The `"â€¦"` literal appended by `sanitize_topics` when truncating an
over-long topic (the source file stores these three characters). -/
def TRUNCATION_SUFFIX : List Char := ['â', '€', '¦']

/-- Model of `re.sub(r"\s+", " ", chunk).strip()` applied to one chunk of
`sanitize_topics`. -/
def cleanChunk (chunk : List Char) : List Char := pyStrip (collapseWS chunk)

/-- The truncation step of `sanitize_topics`:
`cleaned[:40].rstrip() + "â€¦"` when `len(cleaned) > 40`. -/
def truncTopic (t : List Char) : List Char :=
  if t.length > 40 then pyRStrip (t.take 40) ++ TRUNCATION_SUFFIX else t

/-- The body of the `for chunk in raw.split(",")` loop of `sanitize_topics`,
with the accumulated `topics` list made explicit.  Each chunk is
whitespace-collapsed and stripped; empty results are skipped; results longer
than 40 characters are truncated to their right-stripped 40-character prefix
plus `TRUNCATION_SUFFIX`; after each append the loop stops as soon as
`len(topics) >= max_topics`. -/
def sanitizeLoop (maxTopics : Int) : List (List Char) → List (List Char) → List (List Char)
  | [], topics => topics
  | chunk :: rest, topics =>
    let cleaned := cleanChunk chunk
    if cleaned = [] then sanitizeLoop maxTopics rest topics
    else
      let topics' := topics ++ [truncTopic cleaned]
      if maxTopics ≤ (topics'.length : Int) then topics'
      else sanitizeLoop maxTopics rest topics'

/-- Model of `sanitize_topics` from `utils/validators.py`.  `max_topics` is a Python
`int`, modelled as `Int` (the default is 5). -/
def sanitize_topics (raw : List Char) (maxTopics : Int := 5) : List (List Char) :=
  if raw = [] then [] else sanitizeLoop maxTopics (pySplit ',' raw) []

/-- How a value absent from, or present in, the `params` dict reaches
`validate_params`.  `story_count` is the result of
`int(params.get("story_count", 1))`; the string-valued fields are `none`
when the key is missing (Python `None`); `topics` distinguishes a genuine
list from a non-list value because `validate_params` only length-checks
lists; `prompt_seed` defaults to `""` via `params.get("prompt_seed", "")`. -/
inductive TopicsField
  | pylist (items : List String)
  | nonList
deriving DecidableEq

structure Params where
  story_count : Int := 1
  learning_language : Option String := none
  native_language : Option String := none
  level_schema : Option String := none
  level : Option String := none
  topics : TopicsField := .pylist []
  prompt_seed : String := ""

/-- Python `x in xs` for an optional string against a list of strings
(`None in xs` is `False` for a list of strings). -/
def pyContains (xs : List String) (x : Option String) : Bool :=
  match x with
  | none => false
  | some s => xs.contains s

/-- The local `schema = params.get("level_schema", "CEFR")` of
`validate_params`. -/
def effSchema (p : Params) : String := p.level_schema.getD "CEFR"

/-- The check `isinstance(topics, list) and len(topics) > 5` of
`validate_params` (a non-list `topics` value skips the length check). -/
def topicsTooMany : TopicsField → Bool
  | .pylist items => items.length > 5
  | .nonList => false

/-- Model of `validate_params` from `utils/validators.py`, translated check by check
in source order.  Returns the `(ok, message)` pair the Python function
returns. -/
def validate_params (p : Params) : Bool × Option String :=
  if p.story_count < 1 || p.story_count > 10 then
    (false, some "Please choose between 1 and 10 stories.")
  else if !(pyContains ALLOWED_LANGUAGES p.learning_language) then
    (false, some "Choose a supported learning language.")
  else if !(pyContains ALLOWED_LANGUAGES p.native_language) then
    (false, some "Choose a supported native language.")
  else if p.learning_language = p.native_language then
    (false, some "Learning and native languages should differ for best results.")
  else
    match schemaLookup (effSchema p) with
    | none => (false, some "Select a valid proficiency framework.")
    | some levels =>
      if !(pyContains levels p.level) then
        (false, some "Select a valid proficiency level.")
      else if topicsTooMany p.topics then
        (false, some "Limit topics to five short phrases.")
      else if p.prompt_seed ≠ "" ∧ p.prompt_seed.length > 300 then
        (false, some "Additional instructions are too long. Shorten to under 300 characters.")
      else
        (true, none)

/-- The validity condition of claim C5, written as the claim states it (to
be compared with `validate_params`): story count in 1..10, both languages
allowed and distinct, a known level schema, a level in that schema's list,
at most five topics when `topics` is a list, and a prompt seed of at most
300 characters when nonempty. -/
def validParams (p : Params) : Prop :=
  (1 ≤ p.story_count ∧ p.story_count ≤ 10) ∧
  (∃ s, p.learning_language = some s ∧ s ∈ ALLOWED_LANGUAGES) ∧
  (∃ s, p.native_language = some s ∧ s ∈ ALLOWED_LANGUAGES) ∧
  p.learning_language ≠ p.native_language ∧
  (effSchema p = "CEFR" ∨ effSchema p = "HSK" ∨ effSchema p = "General") ∧
  (∃ s, p.level = some s ∧ s ∈ allowed_levels (effSchema p)) ∧
  (∀ items, p.topics = .pylist items → items.length ≤ 5) ∧
  (p.prompt_seed ≠ "" → p.prompt_seed.length ≤ 300)

/-- No two adjacent characters are both whitespace. -/
def noTwoSpaces (a b : Char) : Prop := ¬(pyIsSpace a = true ∧ pyIsSpace b = true)

instance : DecidableRel noTwoSpaces := fun a b =>
  decidable_of_iff (¬(pyIsSpace a = true ∧ pyIsSpace b = true)) Iff.rfl

/-- The cleanliness property claim C6 asserts of every returned topic:
nonempty, no leading or trailing whitespace, every whitespace character a
single plain space, and no two adjacent whitespace characters (i.e. every
internal whitespace run is a single space). -/
def cleanTopic (t : List Char) : Prop :=
  t ≠ [] ∧
  (∀ c, t.head? = some c → pyIsSpace c = false) ∧
  (∀ c, t.getLast? = some c → pyIsSpace c = false) ∧
  (∀ c ∈ t, pyIsSpace c = true → c = ' ') ∧
  List.Chain' noTwoSpaces t

/-! ## `utils/pdf.py` -/

/-- The text values `StoryPDF._prepare_text` handles specially: `None`,
`bytes` and `str` (any other Python value would go through `str(text)` and
behave like the `str` case). -/
inductive PyText
  | pynone
  | pybytes (data : List UInt8)
  | pystr (s : List Char)
deriving DecidableEq

/-- Python `bytes.decode("latin-1", "replace")`: each byte maps to the
Unicode code point of the same value (every byte is valid Latin-1, so the
`"replace"` handler never fires). -/
def decodeLatin1 (b : UInt8) : Char := Char.ofNat b.toNat

/-- One character of `text_str.encode("latin-1", "replace").decode("latin-1")`:
a character outside Latin-1 (code point above 255) is replaced by `'?'`
(the byte the `"replace"` error handler emits). -/
def latin1Replace (c : Char) : Char := if c.toNat ≤ 255 then c else '?'

/-- The `text_str` computed by `_prepare_text` before the font check:
`text.decode("latin-1", "replace")` for bytes, `str(text)` otherwise. -/
def pyTextToStr : PyText → List Char
  | .pynone => []
  | .pybytes data => data.map decodeLatin1
  | .pystr s => s

/-- Model of `StoryPDF._prepare_text`, parameterised by the `uses_unicode_fonts`
field of the instance. -/
def prepareText (uses_unicode_fonts : Bool) (text : PyText) : List Char :=
  match text with
  | .pynone => []
  | t =>
    let text_str := pyTextToStr t
    if uses_unicode_fonts then text_str
    else text_str.map latin1Replace

/-- The state of a `StoryPDF` as far as `multi_cell` consults it: page
width, the two margins and the Unicode-font flag.  FPDF dimensions are
Python floats; only subtraction, comparison and `max` are applied to them
here, modelled exactly over the rationals. -/
structure PDFState where
  w : ℚ
  l_margin : ℚ
  r_margin : ℚ
  uses_unicode_fonts : Bool

/-- The drawing operations `StoryPDF.multi_cell` issues against the
underlying FPDF implementation (the styling arguments `border`, `align`
and `fill` are forwarded unchanged and carry no logic, so they are left
out of the event). -/
inductive PDFEvent
  | setX (x : ℚ)
  | superMultiCell (w h : ℚ) (txt : List Char)
  | ln (h : ℚ)
deriving DecidableEq

/-- Model of `" ".join(line) if line else ""` from the fallback loop: a space
between every pair of adjacent characters. -/
def spaceOut (line : List Char) : List Char :=
  if line = [] then [] else List.intersperse ' ' line

/-- The `effective_width` computation of the `except FPDFException` branch
of `StoryPDF.multi_cell`: `w`, unless falsy (`0`), in which case the
printable page width, floored at `max(page_width, 1)` whenever the result
is still nonpositive. -/
def effectiveWidth (st : PDFState) (w : ℚ) : ℚ :=
  let e := if w = 0 then st.w - st.l_margin - st.r_margin else w
  if e ≤ 0 then max (st.w - st.l_margin - st.r_margin) 1 else e

/-- The `for idx, line in enumerate(lines)` loop of the fallback branch:
for each line, move to the left margin, render the spaced-out line through
the underlying `multi_cell`, and issue a line break between lines.  The
`oracle` says whether a given underlying `multi_cell` call raises
`FPDFException`; a raise inside the loop propagates. -/
def fallbackRender (st : PDFState) (oracle : ℚ → List Char → Bool) (effW h : ℚ) :
    List (List Char) → Except Unit (List PDFEvent)
  | [] => .ok []
  | line :: rest =>
    let spaced := spaceOut line
    if oracle effW spaced then .error ()
    else
      match fallbackRender st oracle effW h rest with
      | .error e => .error e
      | .ok evs =>
        .ok ([PDFEvent.setX st.l_margin, PDFEvent.superMultiCell effW h spaced] ++
          (if rest = [] then [] else [PDFEvent.ln h]) ++ evs)

/-- Model of `StoryPDF.multi_cell`: prepare the text, try the underlying
`multi_cell`, and on `FPDFException` either re-raise (Unicode fonts
registered) or re-render line by line with spaced-out characters.
`.error ()` is a propagated `FPDFException`; `.ok evs` lists the calls made
into the underlying FPDF. -/
def StoryPDF_multi_cell (st : PDFState) (oracle : ℚ → List Char → Bool)
    (w h : ℚ) (txt : PyText) : Except Unit (List PDFEvent) :=
  let prepared := prepareText st.uses_unicode_fonts txt
  if oracle w prepared = false then .ok [PDFEvent.superMultiCell w h prepared]
  else if st.uses_unicode_fonts then .error ()
  else fallbackRender st oracle (effectiveWidth st w) h (pySplit '\n' prepared)

/-! ## `streamlit_app.py` — `build_zip_bundle` -/

/-- Data written into a zip entry by `writestr`: the PDF/MP3 payloads are
`bytes`, the manifest is a `str` (which `zipfile` encodes itself). -/
inductive ZipData
  | bytes (data : List UInt8)
  | text (s : String)
deriving DecidableEq

/-- The `zipfile.ZipFile(buffer, "w")` archive, modelled as the ordered
list of entries written so far; `writestr(filename, data)` appends an
entry.  Compression (`ZIP_DEFLATED`) only changes the stored
representation, not the association of names to uncompressed contents. -/
def writestr (entries : List (String × ZipData)) (filename : String) (data : ZipData) :
    List (String × ZipData) :=
  entries ++ [(filename, data)]

/-- Model of `build_zip_bundle` from `streamlit_app.py`: write every provided
`(filename, data)` pair in order, then write the manifest string as
`manifest.json`. -/
def build_zip_bundle (files : List (String × List UInt8)) (manifest : String) :
    List (String × ZipData) :=
  writestr (files.foldl (fun acc fd => writestr acc fd.1 (.bytes fd.2)) [])
    "manifest.json" (.text manifest)

/-! ## `utils/ai.py` — JSON repair, story parsing, generation loop -/

/-- Python values as produced by `json.loads`: strings, integers, booleans,
`None`, lists and dicts.  (Floats do not occur in any claim-relevant
path.) -/
inductive PyVal
  | pstr (s : List Char)
  | pint (n : Int)
  | pbool (b : Bool)
  | pnone
  | plist (items : List PyVal)
  | pdict (entries : List (List Char × PyVal))

/-- Python truthiness of a JSON-derived value. -/
def pyTruthy : PyVal → Bool
  | .pstr s => !s.isEmpty
  | .pint n => n ≠ 0
  | .pbool b => b
  | .pnone => false
  | .plist items => !items.isEmpty
  | .pdict entries => !entries.isEmpty

/-- Python `dict.get(key, default)` (keys of a `json.loads` dict are
unique, so first-match lookup is exact). -/
def pyDictGet (entries : List (List Char × PyVal)) (key : List Char) (default : PyVal) :
    PyVal :=
  ((entries.find? (fun kv => kv.1 == key)).map (·.2)).getD default

/-- Python `str()` on a JSON-derived value, modelled from the standard
library (external to the repository): strings pass through and scalars
render as Python renders them; the exact rendering of containers is
irrelevant to every claim (only emptiness after `.strip()` can matter),
so they are rendered as their bracket characters. -/
def pyStr : PyVal → List Char
  | .pstr s => s
  | .pint n => (toString n).toList
  | .pbool true => "True".toList
  | .pbool false => "False".toList
  | .pnone => "None".toList
  | .plist _ => ['[', ']']
  | .pdict _ => [Char.ofNat 123, Char.ofNat 125]

/-- The character `'{'` (code point 123). -/
def openBrace : Char := Char.ofNat 123

/-- The character `'}'` (code point 125). -/
def closeBrace : Char := Char.ofNat 125

/-- Index of the first occurrence of `c`, if any. -/
def firstIdx (c : Char) : List Char → Option Nat
  | [] => none
  | x :: xs => if x = c then some 0 else (firstIdx c xs).map (· + 1)

/-- Python `str.find(c)`: index of the first occurrence, `-1` if absent. -/
def pyFind (s : List Char) (c : Char) : Int :=
  match firstIdx c s with
  | some i => i
  | none => -1

/-- Python `str.rfind(c)`: index of the last occurrence, `-1` if absent. -/
def pyRFind (s : List Char) (c : Char) : Int :=
  match firstIdx c s.reverse with
  | some i => ((s.length - 1 - i : Nat) : Int)
  | none => -1

/-- Python slice `s[start:stop]` for nonnegative bounds. -/
def pySlice (s : List Char) (start stop : Nat) : List Char := (s.take stop).drop start

/-- Model of `_repair_json_payload` from `utils/ai.py`, parameterised by the
external `json.loads` (`jsonLoads s = some v` when `s` parses as JSON,
`none` when `json.JSONDecodeError` is raised): try the stripped payload,
then the slice from the first `'{'` to the last `'}'` when one exists
after the other, else raise (`.error ()` is the
`ValueError("Model response was not valid JSON.")`). -/
def repair_json_payload (jsonLoads : List Char → Option PyVal) (payload : List Char) :
    Except Unit PyVal :=
  let text := pyStrip payload
  match jsonLoads text with
  | some data => .ok data
  | none =>
    let start := pyFind text openBrace
    let e := pyRFind text closeBrace
    if start ≠ -1 ∧ e ≠ -1 ∧ e > start then
      match jsonLoads (pySlice text start.toNat (e.toNat + 1)) with
      | some data => .ok data
      | none => .error ()
    else .error ()

/-- The exceptions `_parse_story_payload` can raise: the re-raised
`ValueError` carrying the payload preview, and the `AttributeError` Python
raises when `data` is not a dict (no `.get`) or its `"title"` value is not
a string (no `.strip`). -/
inductive PErr
  | valueError (preview : List Char)
  | attributeError
deriving DecidableEq

/-- Model of `.strip()` called directly on a value (the `"title"` handling):
succeeds only on strings. -/
def pyStripAttr : PyVal → Except Unit (List Char)
  | .pstr s => .ok (pyStrip s)
  | _ => .error ()

/-- The preview built for the `ValueError` of `_parse_story_payload`:
`" ".join((payload or "").strip().splitlines())[:280]`.  `splitlines` is
modelled as splitting at `'\n'` (other line terminators affect no
claim). -/
def payloadPreview (payload : List Char) : List Char :=
  (List.intercalate [' '] (pySplit '\n' (pyStrip payload))).take 280

/-- One cleaned entry of `reading_sections`. -/
structure StorySection where
  original : List Char
  phonetics : List Char
  translation : List Char
deriving DecidableEq

/-- The `for section in sections_raw` loop: skip non-dicts, clean the three
fields, and keep only sections with a nonempty `original`. -/
def cleanSections : List PyVal → List StorySection
  | [] => []
  | .pdict entries :: rest =>
    let original := pyStrip (pyStr (pyDictGet entries ("original".toList) (.pstr [])))
    let phonetics := pyStrip (pyStr (pyDictGet entries ("phonetics".toList) (.pstr [])))
    let translation := pyStrip (pyStr (pyDictGet entries ("translation".toList) (.pstr [])))
    if original = [] then cleanSections rest
    else { original := original, phonetics := phonetics, translation := translation } ::
      cleanSections rest
  | _ :: rest => cleanSections rest

/-- The glossary loop: skip non-dicts, keep entries whose stripped `term`
and `definition` are both nonempty. -/
def cleanGlossary : List PyVal → List (List Char × List Char)
  | [] => []
  | .pdict entries :: rest =>
    let term := pyStrip (pyStr (pyDictGet entries ("term".toList) (.pstr [])))
    let definition := pyStrip (pyStr (pyDictGet entries ("definition".toList) (.pstr [])))
    if term ≠ [] ∧ definition ≠ [] then (term, definition) :: cleanGlossary rest
    else cleanGlossary rest
  | _ :: rest => cleanGlossary rest

/-- The loops over `grammar_notes`, `practice_ideas` and
`culture_or_strategy_notes`: `str(..).strip()` each entry, keep nonempty
results. -/
def cleanNotes : List PyVal → List (List Char)
  | [] => []
  | note :: rest =>
    let note_text := pyStrip (pyStr note)
    if note_text = [] then cleanNotes rest else note_text :: cleanNotes rest

/-- Model of `data.get(key) or []`: a falsy value (including a missing key's `None`)
becomes the empty list. -/
def getOrEmptyList (entries : List (List Char × PyVal)) (key : List Char) : PyVal :=
  let v := pyDictGet entries key .pnone
  if pyTruthy v then v else .plist []

/-- Model of `isinstance(v, list)` guard before the section loop. -/
def sectionsOf (v : PyVal) : List StorySection :=
  match v with
  | .plist items => cleanSections items
  | _ => []

/-- Model of `isinstance(v, list)` guard before the glossary loop. -/
def glossaryOf (v : PyVal) : List (List Char × List Char) :=
  match v with
  | .plist items => cleanGlossary items
  | _ => []

/-- Model of `isinstance(v, list)` guard before each notes loop. -/
def notesOf (v : PyVal) : List (List Char) :=
  match v with
  | .plist items => cleanNotes items
  | _ => []

/-- Model of `"\n\n".join(paragraphs)`. -/
def joinBlank (ls : List (List Char)) : List Char := List.intercalate ['\n', '\n'] ls

/-- The dictionary `_parse_story_payload` returns. -/
structure Story where
  title : List Char
  summary : List Char
  body : List Char
  reading_sections : List StorySection
  translation : List Char
  glossary : List (List Char × List Char)
  grammar_notes : List (List Char)
  practice_ideas : List (List Char)
  extra_notes : List (List Char)
deriving DecidableEq

/-- The post-repair body of `_parse_story_payload`: extract and clean every
field of the parsed JSON value `data`.  The per-section `body_paragraphs`
and (nonempty) `translation_paragraphs` accumulated by the loop equal the
map/filter over the kept sections. -/
def cleanStory (data : PyVal) : Except PErr Story :=
  match data with
  | .pdict entries =>
    match pyStripAttr (pyDictGet entries ("title".toList) (.pstr ("Untitled Story".toList))) with
    | .error () => .error .attributeError
    | .ok title =>
      let summary := pyStrip (pyStr (pyDictGet entries ("summary".toList) (.pstr [])))
      let reading_sections := sectionsOf (getOrEmptyList entries ("reading_sections".toList))
      let body_paragraphs := reading_sections.map (·.original)
      let translation_paragraphs :=
        (reading_sections.map (·.translation)).filter (fun t => t ≠ [])
      let glossary := glossaryOf (getOrEmptyList entries ("glossary".toList))
      let grammar_notes := notesOf (getOrEmptyList entries ("grammar_notes".toList))
      let practice_ideas := notesOf (getOrEmptyList entries ("practice_ideas".toList))
      let extra_notes := notesOf (getOrEmptyList entries ("culture_or_strategy_notes".toList))
      .ok { title := title, summary := summary,
            body := pyStrip (joinBlank body_paragraphs),
            reading_sections := reading_sections,
            translation := pyStrip (joinBlank translation_paragraphs),
            glossary := glossary, grammar_notes := grammar_notes,
            practice_ideas := practice_ideas, extra_notes := extra_notes }
  | _ => .error .attributeError

/-- Model of `_parse_story_payload`: repair the JSON, re-raising a `ValueError` with
the payload preview on failure, then clean the parsed value. -/
def parse_story_payload (jsonLoads : List Char → Option PyVal) (payload : List Char) :
    Except PErr Story :=
  match repair_json_payload jsonLoads payload with
  | .error () => .error (.valueError (payloadPreview payload))
  | .ok data => cleanStory data

/-- One chat-completion response as `generate_story` inspects it:
`getattr(choice, "finish_reason", "stop")` (empty string for a falsy
value) and `choice.message.content if choice.message else None`. -/
structure LLMResponse where
  finish_reason : List Char
  content : Option (List Char)

/-- The exceptions `generate_story` can raise: the "halted early"
`ValueError`, the "no content" `ValueError`, the re-raised parse
`ValueError` (carrying the payload preview), an `AttributeError` escaping
the `except ValueError` handler, the retry marker stored in `last_error`
on a token-limit retry, and the final "unknown reason" `ValueError`. -/
inductive GenError
  | haltedEarly
  | noContent
  | parseValueError (preview : List Char)
  | parseAttributeError
  | tokenLimit
  | unknownFailure
deriving DecidableEq

/-- The truncation heuristic of `generate_story`: nonempty stripped content
that does not end with `'}'`, has more `'{'` than `'}'`, or ends with a
double quote. -/
def truncatedHeuristic (stripped : List Char) : Bool :=
  !stripped.isEmpty &&
    (!(stripped.getLast? == some closeBrace) ||
     decide (stripped.count openBrace > stripped.count closeBrace) ||
     stripped.getLast? == some '"')

/-- Model of `min(max_tokens + 1400, 7200)`, applied on a `"length"` retry. -/
def nextBudgetLength (maxTokens : Nat) : Nat := min (maxTokens + 1400) 7200

/-- The enlargement applied on a parse-failure retry:
`min(max_tokens + 1600, 7200)` when the payload looks truncated, else
`min(int(max_tokens * 1.4), 7200)` (the product `max_tokens * 1.4` modelled
exactly over the rationals, `int()` as floor). -/
def nextBudgetParse (maxTokens : Nat) (truncated : Bool) : Nat :=
  if truncated then min (maxTokens + 1600) 7200
  else min (maxTokens * 14 / 10) 7200

/-- Model of `_suggested_token_budget` of `generate_story`. -/
def suggestedTokenBudget (story_length : Option String) (include_glossary : Bool) : Nat :=
  let base :=
    match (story_length.getD "medium").toLower with
    | "short" => 3200
    | "medium" => 4800
    | "long" => 6000
    | _ => 4800
  let extras := (if include_glossary then 600 else 300) + 650
  max 2000 (min (base + extras) 7200)

/-- The parameters `generate_story` consults for its control flow (the
prompt text, temperature, top-p and model name are forwarded to the API
call and play no role in the loop). -/
structure GenParams where
  story_length : Option String := none
  include_glossary : Bool := false
  max_tokens : Option Nat := none

/-- Model of `int(params.get("max_tokens") or _suggested_token_budget())`: a missing
or falsy (zero) `max_tokens` falls back to the suggested budget. -/
def initialMaxTokens (p : GenParams) : Nat :=
  match p.max_tokens with
  | some n => if n = 0 then suggestedTokenBudget p.story_length p.include_glossary else n
  | none => suggestedTokenBudget p.story_length p.include_glossary

/-- The `while attempt < max_attempts` loop of `generate_story`.  `oracle k`
is the response of the `(k+1)`-st API call; `fuel` equals
`maxAttempts - attempt` at every call site, which makes the recursion
structural while the guards still test `attempt` exactly as the source
does. -/
def generateLoop (jsonLoads : List Char → Option PyVal) (oracle : Nat → LLMResponse) :
    Nat → Nat → Nat → Nat → Option GenError → Except GenError Story
  | 0, _, _, _, lastError =>
    match lastError with
    | some e => .error e
    | none => .error .unknownFailure
  | fuel + 1, attempt, maxAttempts, maxTokens, lastError =>
    let response := oracle attempt
    let fr := response.finish_reason
    if fr ≠ [] ∧ fr ≠ "stop".toList then
      if fr = "length".toList ∧ attempt + 1 < maxAttempts then
        generateLoop jsonLoads oracle fuel (attempt + 1) maxAttempts
          (nextBudgetLength maxTokens) (some .tokenLimit)
      else .error .haltedEarly
    else
      match response.content with
      | none => .error .noContent
      | some content =>
        if content = [] then .error .noContent
        else
          match parse_story_payload jsonLoads content with
          | .ok story => .ok story
          | .error (.valueError preview) =>
            if attempt + 1 < maxAttempts then
              generateLoop jsonLoads oracle fuel (attempt + 1) maxAttempts
                (nextBudgetParse maxTokens (truncatedHeuristic (pyStrip content)))
                (some (.parseValueError preview))
            else .error (.parseValueError preview)
          | .error .attributeError => .error .parseAttributeError

/-- Model of `generate_story`: up to `max_attempts = 5` sequential API calls,
starting from the parameter-supplied or suggested token budget. -/
def generate_story (jsonLoads : List Char → Option PyVal) (p : GenParams)
    (oracle : Nat → LLMResponse) : Except GenError Story :=
  generateLoop jsonLoads oracle 5 0 5 (initialMaxTokens p) none

/-! ## `utils/audio.py` — `synthesize_audio` -/

/-- A TTS response as `synthesize_audio` probes it.  A field is `none` when
the attribute is absent; `read` and `to_bytes` being `some r` models
`hasattr` and `callable` holding together with the value the call would
return; `data` items carry `getattr(item, "audio", None)`. -/
structure TTSResponse where
  content : Option (List UInt8) := none
  audio : Option (List UInt8) := none
  read : Option (List UInt8) := none
  to_bytes : Option (List UInt8) := none
  data : Option (List (Option (List UInt8))) := none

/-- The exceptions `synthesize_audio` raises (`AudioSynthesisError` with
the three distinct messages). -/
inductive AudioErr
  | emptyText
  | apiFailure
  | noData
deriving DecidableEq

/-- The `audio_bytes` selection chain of `synthesize_audio`: the `content`,
`audio` and `data` branches require a truthy attribute value, while the
`read` and `to_bytes` branches are selected by mere presence of the
callable. -/
def selectAudioBytes (r : TTSResponse) : Option (List UInt8) :=
  if (r.content.getD []) ≠ [] then r.content
  else if (r.audio.getD []) ≠ [] then r.audio
  else if r.read.isSome then r.read
  else if r.to_bytes.isSome then r.to_bytes
  else if (r.data.getD []) ≠ [] then
    match r.data with
    | some (first :: _) => first
    | _ => none
  else none

/-- Model of `synthesize_audio`: reject blank text before contacting the API, wrap
an `OpenAIError` from the API call, then probe the response shapes; a
missing or empty `audio_bytes` raises, anything else is returned. -/
def synthesize_audio (text : List Char) (api : Except Unit TTSResponse) :
    Except AudioErr (List UInt8) :=
  if pyStrip text = [] then .error .emptyText
  else
    match api with
    | .error () => .error .apiFailure
    | .ok response =>
      match selectAudioBytes response with
      | none => .error .noData
      | some bs => if bs = [] then .error .noData else .ok bs

/-- The reading of claim C8's "the response yields no audio data through
any of the recognised response shapes", written as the claim states it:
none of the five probed shapes produces nonempty bytes. -/
def someShapeYieldsAudio (r : TTSResponse) : Prop :=
  (r.content.getD []) ≠ [] ∨ (r.audio.getD []) ≠ [] ∨
  (r.read.getD []) ≠ [] ∨ (r.to_bytes.getD []) ≠ [] ∨
  (match r.data with
   | some (some b :: _) => b ≠ []
   | _ => False)

/-- A concrete parsed payload used as witness input. -/
def sampleStoryJson : PyVal :=
  .pdict [("title".toList, .pstr ("T".toList)),
    ("reading_sections".toList,
      .plist [.pdict [("original".toList, .pstr (" Hola ".toList))]])]

/-! ## Theorems -/

/-! ### Generic list lemmas -/

theorem head?_dropWhile_not (p : Char → Bool) (l : List Char) (c : Char)
    (h : (l.dropWhile p).head? = some c) : p c = false := by
  induction l with
  | nil => simp [List.dropWhile] at h
  | cons x xs ih =>
    rw [List.dropWhile_cons] at h
    by_cases hx : p x
    · simp [hx] at h; exact ih h
    · simp [hx] at h; subst h; simp at hx; exact hx

theorem getLast?_dropWhile (p : Char → Bool) (l : List Char)
    (h : l.dropWhile p ≠ []) : (l.dropWhile p).getLast? = l.getLast? := by
  induction l with
  | nil => simp [List.dropWhile] at h
  | cons x xs ih =>
    rw [List.dropWhile_cons]
    by_cases hx : p x
    · rw [List.dropWhile_cons, if_pos hx] at h
      rw [if_pos hx, ih h, List.getLast?_cons]
      have hxs : xs ≠ [] := by
        intro hnil; exact h (by simp [hnil, List.dropWhile])
      cases hgl : xs.getLast? with
      | none => exact absurd (List.getLast?_eq_none_iff.mp hgl) hxs
      | some y => simp
    · rw [if_neg hx]

theorem dropWhile_ne_nil_of_exists (p : Char → Bool) (l : List Char)
    (h : ∃ c ∈ l, p c = false) : l.dropWhile p ≠ [] := by
  induction l with
  | nil => simp at h
  | cons x xs ih =>
    rw [List.dropWhile_cons]
    by_cases hx : p x
    · rw [if_pos hx]
      rcases h with ⟨c, hc, hcp⟩
      rcases List.mem_cons.mp hc with rfl | hc'
      · exact absurd hx (by simp [hcp])
      · exact ih ⟨c, hc', hcp⟩
    · simp [hx]

theorem chain'_dropWhile {R : Char → Char → Prop} (p : Char → Bool) (l : List Char)
    (h : List.Chain' R l) : List.Chain' R (l.dropWhile p) := by
  induction l with
  | nil => simp
  | cons x xs ih =>
    rw [List.dropWhile_cons]
    by_cases hx : p x
    · exact if_pos hx ▸ ih h.tail
    · exact if_neg hx ▸ h

/-! ### Facts about `pyStrip`, `pyRStrip` and `collapseWS` -/

theorem pyRStrip_getLast?_not_space (l : List Char) (c : Char)
    (h : (pyRStrip l).getLast? = some c) : pyIsSpace c = false := by
  rw [pyRStrip, List.getLast?_reverse] at h
  exact head?_dropWhile_not _ _ _ h

theorem pyRStrip_head? (l : List Char) (h : pyRStrip l ≠ []) :
    (pyRStrip l).head? = l.head? := by
  rw [pyRStrip] at h ⊢
  rw [List.head?_reverse]
  have hne : l.reverse.dropWhile pyIsSpace ≠ [] := by
    intro h0; rw [h0] at h; exact h rfl
  rw [getLast?_dropWhile _ _ hne, List.getLast?_reverse]

theorem pyStrip_head?_not_space (l : List Char) (c : Char)
    (h : (pyStrip l).head? = some c) : pyIsSpace c = false := by
  by_cases hne : pyStrip l = []
  · rw [hne] at h; simp at h
  · rw [pyStrip] at h hne
    rw [pyRStrip_head? _ hne] at h
    exact head?_dropWhile_not _ _ _ h

theorem pyStrip_getLast?_not_space (l : List Char) (c : Char)
    (h : (pyStrip l).getLast? = some c) : pyIsSpace c = false :=
  pyRStrip_getLast?_not_space _ _ h

theorem mem_pyRStrip (l : List Char) (c : Char) (h : c ∈ pyRStrip l) : c ∈ l := by
  rw [pyRStrip, List.mem_reverse] at h
  exact List.mem_reverse.mp ((List.dropWhile_sublist _).mem h)

theorem mem_pyStrip (l : List Char) (c : Char) (h : c ∈ pyStrip l) : c ∈ l :=
  (List.dropWhile_sublist _).mem (mem_pyRStrip _ _ h)

theorem chain'_pyRStrip (l : List Char) (h : List.Chain' noTwoSpaces l) :
    List.Chain' noTwoSpaces (pyRStrip l) := by
  rw [pyRStrip, List.chain'_reverse]
  apply chain'_dropWhile
  rw [List.chain'_reverse]
  exact h.imp (fun a b hr => hr)

theorem chain'_pyStrip (l : List Char) (h : List.Chain' noTwoSpaces l) :
    List.Chain' noTwoSpaces (pyStrip l) :=
  chain'_pyRStrip _ (chain'_dropWhile _ _ h)

theorem collapseWS_spaces (l : List Char) :
    ∀ c ∈ collapseWS l, pyIsSpace c = true → c = ' ' := by
  induction l with
  | nil => simp [collapseWS]
  | cons c rest ih =>
    intro d hd hds
    rw [collapseWS] at hd
    by_cases hc : pyIsSpace c
    · rw [if_pos hc] at hd
      by_cases hh : (collapseWS rest).head? = some ' '
      · rw [if_pos hh] at hd
        exact ih d hd hds
      · rw [if_neg hh] at hd
        rcases List.mem_cons.mp hd with rfl | hd'
        · rfl
        · exact ih d hd' hds
    · rw [if_neg hc] at hd
      rcases List.mem_cons.mp hd with rfl | hd'
      · exact absurd hds (by simp [hc])
      · exact ih d hd' hds

theorem collapseWS_chain (l : List Char) : List.Chain' noTwoSpaces (collapseWS l) := by
  induction l with
  | nil => simp [collapseWS]
  | cons c rest ih =>
    rw [collapseWS]
    by_cases hc : pyIsSpace c
    · rw [if_pos hc]
      by_cases hh : (collapseWS rest).head? = some ' '
      · rw [if_pos hh]
        exact ih
      · rw [if_neg hh]
        rw [List.chain'_cons']
        refine ⟨?_, ih⟩
        intro b hb
        intro ⟨_, hbs⟩
        apply hh
        have hbmem : b ∈ collapseWS rest := by
          cases hcw : collapseWS rest with
          | nil => rw [hcw] at hb; simp at hb
          | cons x tail =>
            rw [hcw] at hb; simp at hb; subst hb
            exact hcw ▸ List.mem_cons_self x tail
        have := collapseWS_spaces rest b hbmem hbs
        subst this
        exact hb
    · rw [if_neg hc]
      rw [List.chain'_cons']
      refine ⟨?_, ih⟩
      intro b _
      intro ⟨hcs, _⟩
      exact absurd hcs (by simp [hc])

theorem head?_mem (l : List Char) (c : Char) (h : l.head? = some c) : c ∈ l := by
  cases l with
  | nil => simp at h
  | cons x xs => simp at h; subst h; exact List.mem_cons_self x xs

theorem head?_append_left (a b : List Char) (h : a ≠ []) : (a ++ b).head? = a.head? := by
  cases a with
  | nil => exact absurd rfl h
  | cons x xs => rfl

theorem head?_take (n : Nat) (l : List Char) (hn : n ≠ 0) : (l.take n).head? = l.head? := by
  cases n with
  | zero => exact absurd rfl hn
  | succ m => cases l <;> rfl

/-! ### Topic cleanliness (claim C6) -/

theorem cleanTopic_cleanChunk (chunk : List Char) (h : cleanChunk chunk ≠ []) :
    cleanTopic (cleanChunk chunk) := by
  refine ⟨h, ?_, ?_, ?_, ?_⟩
  · exact fun c hc => pyStrip_head?_not_space _ _ hc
  · exact fun c hc => pyStrip_getLast?_not_space _ _ hc
  · intro c hc hcs
    exact collapseWS_spaces _ c (mem_pyStrip _ _ hc) hcs
  · exact chain'_pyStrip _ (collapseWS_chain _)

theorem cleanTopic_truncTopic (t : List Char) (h : cleanTopic t) :
    cleanTopic (truncTopic t) := by
  obtain ⟨hne, hhead, hlast, hsp, hch⟩ := h
  unfold truncTopic
  by_cases hl : t.length > 40
  · rw [if_pos hl]
    obtain ⟨c₀, hc₀⟩ : ∃ c, t.head? = some c := by
      cases t with
      | nil => exact absurd rfl hne
      | cons x xs => exact ⟨x, rfl⟩
    have hc₀s : pyIsSpace c₀ = false := hhead _ hc₀
    have htake : (t.take 40).head? = some c₀ := by
      rw [head?_take 40 t (by norm_num)]; exact hc₀
    have hprne : pyRStrip (t.take 40) ≠ [] := by
      rw [pyRStrip]
      intro h0
      rw [List.reverse_eq_nil_iff] at h0
      exact dropWhile_ne_nil_of_exists pyIsSpace (t.take 40).reverse
        ⟨c₀, List.mem_reverse.mpr (head?_mem _ _ htake), hc₀s⟩ h0
    refine ⟨?_, ?_, ?_, ?_, ?_⟩
    · simp [hprne]
    · intro c hc
      rw [head?_append_left _ _ hprne, pyRStrip_head? _ hprne, htake] at hc
      cases hc
      exact hc₀s
    · intro c hc
      rw [List.getLast?_append_of_ne_nil] at hc
      · simp [TRUNCATION_SUFFIX] at hc
        subst hc
        decide
      · decide
    · intro c hc hcs
      rcases List.mem_append.mp hc with h1 | h1
      · exact hsp c ((List.take_sublist _ _).mem (mem_pyRStrip _ _ h1)) hcs
      · have : pyIsSpace c = false := by
          rcases (by simpa [TRUNCATION_SUFFIX] using h1 : c = 'â' ∨ c = '€' ∨ c = '¦')
            with rfl | rfl | rfl <;> decide
        exact absurd hcs (by simp [this])
    · rw [List.chain'_append]
      have hsuf : List.Chain' noTwoSpaces TRUNCATION_SUFFIX := by
        rw [TRUNCATION_SUFFIX]
        exact List.chain'_cons.mpr ⟨by decide,
          List.chain'_cons.mpr ⟨by decide, List.chain'_singleton _⟩⟩
      refine ⟨chain'_pyRStrip _ (hch.take 40), hsuf, ?_⟩
      intro x hx y _
      have hxs : pyIsSpace x = false := pyRStrip_getLast?_not_space _ _ hx
      intro ⟨hx', _⟩
      rw [hxs] at hx'
      cases hx'
  · rw [if_neg hl]
    exact ⟨hne, hhead, hlast, hsp, hch⟩

theorem cleanTopic_topic (chunk : List Char) (h : cleanChunk chunk ≠ []) :
    cleanTopic (truncTopic (cleanChunk chunk)) :=
  cleanTopic_truncTopic _ (cleanTopic_cleanChunk _ h)

/-! ### The `sanitize_topics` loop in closed form -/

theorem sanitizeLoop_closed (m : Int) (chunks : List (List Char)) :
    ∀ acc : List (List Char), (acc.length : Int) < m →
      sanitizeLoop m chunks acc =
        acc ++ ((((chunks.map cleanChunk).filter (fun t => t ≠ [])).map truncTopic).take
          (m - acc.length).toNat) := by
  induction chunks with
  | nil => intro acc _; simp [sanitizeLoop]
  | cons chunk rest ih =>
    intro acc hm
    rw [sanitizeLoop]
    by_cases hc : cleanChunk chunk = []
    · rw [if_pos hc, ih acc hm]
      simp [hc]
    · rw [if_neg hc]
      simp only [List.map_cons]
      rw [List.filter_cons_of_pos (by simp [hc])]
      by_cases hstop : m ≤ ((acc ++ [truncTopic (cleanChunk chunk)]).length : Int)
      · rw [if_pos hstop]
        have h1 : (m - (acc.length : Int)).toNat = 1 := by
          simp only [List.length_append, List.length_cons, List.length_nil] at hstop
          push_cast at hstop
          omega
        rw [List.map_cons, h1]
        simp
      · rw [if_neg hstop]
        have hlen : ((acc ++ [truncTopic (cleanChunk chunk)]).length : Int) < m := by
          simp only [List.length_append, List.length_cons, List.length_nil] at hstop ⊢
          push_cast at hstop ⊢
          omega
        rw [ih _ hlen]
        have h1 : (m - (acc.length : Int)).toNat
            = (m - ((acc ++ [truncTopic (cleanChunk chunk)]).length : Int)).toNat + 1 := by
          simp only [List.length_append, List.length_cons, List.length_nil] at hstop ⊢
          push_cast at hstop ⊢
          omega
        rw [List.map_cons, h1, List.take_succ_cons]
        simp

/-! ### Claim C10 — `allowed_levels` -/

theorem schemaLookup_eq (s : String) :
    schemaLookup s =
      if s = "CEFR" then some CEFR_LEVELS
      else if s = "HSK" then some HSK_LEVELS
      else if s = "General" then some GENERAL_LEVELS
      else none := by
  by_cases h1 : s = "CEFR"
  · subst h1; decide
  by_cases h2 : s = "HSK"
  · subst h2; decide
  by_cases h3 : s = "General"
  · subst h3; decide
  rw [if_neg h1, if_neg h2, if_neg h3]
  have e1 : (("CEFR" : String) == s) = false := beq_eq_false_iff_ne.mpr (fun h => h1 h.symm)
  have e2 : (("HSK" : String) == s) = false := beq_eq_false_iff_ne.mpr (fun h => h2 h.symm)
  have e3 : (("General" : String) == s) = false := beq_eq_false_iff_ne.mpr (fun h => h3 h.symm)
  simp [schemaLookup, ALLOWED_LEVEL_SCHEMAS, List.find?, e1, e2, e3]

/-- C10: for every schema string, including ones outside the known set,
`allowed_levels schema` is nonempty; it is the CEFR, HSK or General list for
those schemas, and falls back to the CEFR list for any other input. -/
theorem C10_allowed_levels (s : String) :
    allowed_levels s ≠ [] ∧
    allowed_levels "CEFR" = CEFR_LEVELS ∧
    allowed_levels "HSK" = HSK_LEVELS ∧
    allowed_levels "General" = GENERAL_LEVELS ∧
    (s ≠ "CEFR" ∧ s ≠ "HSK" ∧ s ≠ "General" → allowed_levels s = CEFR_LEVELS) := by
  refine ⟨?_, by decide, by decide, by decide, ?_⟩
  · rw [allowed_levels, schemaLookup_eq]
    split_ifs <;> decide
  · intro ⟨h1, h2, h3⟩
    rw [allowed_levels, schemaLookup_eq, if_neg h1, if_neg h2, if_neg h3]
    rfl

/-- Witness for C10 at the out-of-set schema `"Klingon"`. -/
theorem C10_allowed_levels_witness :
    allowed_levels "Klingon" ≠ [] ∧ allowed_levels "Klingon" = CEFR_LEVELS := by
  have h := C10_allowed_levels "Klingon"
  exact ⟨h.1, h.2.2.2.2 ⟨by decide, by decide, by decide⟩⟩

/-! ### Claim C6 — `sanitize_topics` -/

/-- C6 is false as stated: `max_topics` is quantified over every value, but
with `max_topics = 0` the loop appends a topic before checking the bound,
so `sanitize_topics("a", max_topics=0)` returns one topic, exceeding the
requested maximum of zero. -/
theorem C6_counterexample :
    sanitize_topics ['a'] 0 = [['a']] ∧
    ¬(((sanitize_topics ['a'] 0).length : Int) ≤ 0) := by
  constructor
  · rfl
  · decide

/-- C6 (amended: for `max_topics ≥ 1`): `sanitize_topics` returns at most
`max_topics` topics, each nonempty, with no leading or trailing whitespace
and all whitespace runs collapsed to single spaces, and the result is
exactly the first `max_topics` cleaned-and-truncated nonempty chunks of the
comma-split input, in order; the empty string yields the empty list. -/
theorem C6_sanitize_topics (raw : List Char) (m : Int) (hm : 1 ≤ m) :
    ((sanitize_topics raw m).length : Int) ≤ m ∧
    (∀ t ∈ sanitize_topics raw m, cleanTopic t) ∧
    sanitize_topics raw m =
      ((((pySplit ',' raw).map cleanChunk).filter (fun t => t ≠ [])).map truncTopic).take
        m.toNat ∧
    sanitize_topics [] m = [] := by
  have hclosed : sanitize_topics raw m =
      ((((pySplit ',' raw).map cleanChunk).filter (fun t => t ≠ [])).map truncTopic).take
        m.toNat := by
    rw [sanitize_topics]
    by_cases hraw : raw = []
    · subst hraw
      rw [if_pos rfl]
      have : cleanChunk [] = [] := rfl
      simp [pySplit, this]
    · rw [if_neg hraw, sanitizeLoop_closed m _ [] (by simp; omega)]
      simp
  refine ⟨?_, ?_, hclosed, by rw [sanitize_topics]; simp⟩
  · rw [hclosed]
    have := List.length_take_le m.toNat
      ((((pySplit ',' raw).map cleanChunk).filter (fun t => t ≠ [])).map truncTopic)
    omega
  · intro t ht
    rw [hclosed] at ht
    have ht' := (List.take_sublist _ _).mem ht
    rcases List.mem_map.mp ht' with ⟨s, hs, rfl⟩
    rcases List.mem_filter.mp hs with ⟨hs', hsne⟩
    rcases List.mem_map.mp hs' with ⟨chunk, _, rfl⟩
    exact cleanTopic_topic chunk (by simpa using hsne)

/-- Witness for C6 at `raw = "hi"`, `max_topics = 5`. -/
theorem C6_sanitize_topics_witness :
    ((sanitize_topics ['h', 'i'] 5).length : Int) ≤ 5 ∧
    sanitize_topics ['h', 'i'] 5 = [['h', 'i']] :=
  ⟨(C6_sanitize_topics ['h', 'i'] 5 (by norm_num)).1, rfl⟩

/-! ### Claim C5 — `validate_params` -/

theorem pyContains_iff (xs : List String) (x : Option String) :
    pyContains xs x = true ↔ ∃ s, x = some s ∧ s ∈ xs := by
  cases x with
  | none => simp [pyContains]
  | some s => simp [pyContains, List.contains_iff_exists_mem_beq, beq_iff_eq]

/-- C5: `validate_params` answers `(True, None)` exactly on the parameter
dictionaries satisfying all the constraints of the claim, and otherwise
returns `(False, msg)` with a nonempty message. -/
theorem C5_validate_params (p : Params) :
    (validate_params p = (true, none) ↔ validParams p) ∧
    (validate_params p = (true, none) ∨
      ∃ msg, validate_params p = (false, some msg) ∧ msg ≠ "") := by
  have failCase : ∀ msg : String, msg ≠ "" → ¬validParams p →
      (((false, some msg) : Bool × Option String) = (true, none) ↔ validParams p) ∧
      (((false, some msg) : Bool × Option String) = (true, none) ∨
        ∃ m, ((false, some msg) : Bool × Option String) = (false, some m) ∧ m ≠ "") :=
    fun msg hne hnv =>
      ⟨⟨fun h => absurd h (by simp), fun hv => absurd hv hnv⟩, Or.inr ⟨msg, rfl, hne⟩⟩
  rw [validate_params]
  by_cases hc1 : (p.story_count < 1 || p.story_count > 10) = true
  · rw [if_pos hc1]
    refine failCase _ (by decide) (fun hv => ?_)
    simp only [Bool.or_eq_true, decide_eq_true_eq] at hc1
    obtain ⟨⟨ha, hb⟩, _⟩ := hv
    omega
  · rw [if_neg hc1]
    simp only [Bool.or_eq_true, decide_eq_true_eq, not_or, not_lt] at hc1
    obtain ⟨hsc1, hsc2⟩ := hc1
    by_cases hc2 : pyContains ALLOWED_LANGUAGES p.learning_language = true
    · rw [if_neg (by simp [hc2])]
      by_cases hc3 : pyContains ALLOWED_LANGUAGES p.native_language = true
      · rw [if_neg (by simp [hc3])]
        by_cases hc4 : p.learning_language = p.native_language
        · rw [if_pos hc4]
          exact failCase _ (by decide) (fun hv => hv.2.2.2.1 hc4)
        · rw [if_neg hc4]
          cases hlv : schemaLookup (effSchema p) with
          | none =>
            dsimp only
            refine failCase _ (by decide) (fun hv => ?_)
            rcases hv.2.2.2.2.1 with he | he | he <;>
              · rw [schemaLookup_eq, he] at hlv; simp at hlv
          | some levels =>
            dsimp only
            by_cases hc5 : pyContains levels p.level = true
            · rw [if_neg (by simp [hc5])]
              by_cases hc6 : topicsTooMany p.topics = true
              · rw [if_pos hc6]
                refine failCase _ (by decide) (fun hv => ?_)
                cases htp : p.topics with
                | pylist items =>
                  rw [htp] at hc6
                  simp only [topicsTooMany, decide_eq_true_eq] at hc6
                  exact absurd (hv.2.2.2.2.2.2.1 items htp) (by omega)
                | nonList => rw [htp] at hc6; simp [topicsTooMany] at hc6
              · have hc6' := Bool.eq_false_iff.mpr hc6
                rw [if_neg (by simp [hc6'])]
                by_cases hc7 : p.prompt_seed ≠ "" ∧ p.prompt_seed.length > 300
                · rw [if_pos hc7]
                  refine failCase _ (by decide) (fun hv => ?_)
                  exact absurd (hv.2.2.2.2.2.2.2 hc7.1) (by omega)
                · rw [if_neg hc7]
                  have hvp : validParams p := by
                    refine ⟨⟨hsc1, hsc2⟩, pyContains_iff _ _ |>.mp hc2,
                      pyContains_iff _ _ |>.mp hc3, hc4, ?_, ?_, ?_, ?_⟩
                    · by_cases e1 : effSchema p = "CEFR"
                      · exact Or.inl e1
                      by_cases e2 : effSchema p = "HSK"
                      · exact Or.inr (Or.inl e2)
                      by_cases e3 : effSchema p = "General"
                      · exact Or.inr (Or.inr e3)
                      rw [schemaLookup_eq, if_neg e1, if_neg e2, if_neg e3] at hlv
                      cases hlv
                    · have hal : allowed_levels (effSchema p) = levels := by
                        rw [allowed_levels, hlv]; rfl
                      rw [hal]
                      exact pyContains_iff _ _ |>.mp hc5
                    · intro items htp
                      rw [htp] at hc6'
                      simp only [topicsTooMany, decide_eq_false_iff_not] at hc6'
                      omega
                    · intro hne
                      by_contra hlen
                      exact hc7 ⟨hne, by omega⟩
                  exact ⟨⟨fun _ => hvp, fun _ => rfl⟩, Or.inl rfl⟩
            · have hc5' := Bool.eq_false_iff.mpr hc5
              rw [if_pos (by simp [hc5'])]
              refine failCase _ (by decide) (fun hv => ?_)
              have hal : allowed_levels (effSchema p) = levels := by
                rw [allowed_levels, hlv]; rfl
              rcases hv.2.2.2.2.2.1 with ⟨s, hs, hmem⟩
              rw [hal] at hmem
              exact hc5 (pyContains_iff _ _ |>.mpr ⟨s, hs, hmem⟩)
      · have hc3' := Bool.eq_false_iff.mpr hc3
        rw [if_pos (by simp [hc3'])]
        refine failCase _ (by decide) (fun hv => ?_)
        exact hc3 (pyContains_iff _ _ |>.mpr hv.2.2.1)
    · have hc2' := Bool.eq_false_iff.mpr hc2
      rw [if_pos (by simp [hc2'])]
      refine failCase _ (by decide) (fun hv => ?_)
      exact hc2 (pyContains_iff _ _ |>.mpr hv.2.1)

/-! ### Claim C4 — `StoryPDF._prepare_text` -/

theorem latin1Replace_le (c : Char) : (latin1Replace c).toNat ≤ 255 := by
  unfold latin1Replace
  split_ifs with h
  · exact h
  · decide

/-- C4: `_prepare_text` returns strings unchanged when Unicode fonts are
registered; with built-in fonts only it maps every character outside
Latin-1 to `'?'`, so the result contains only Latin-1 characters; `None`
maps to the empty string and bytes are decoded (Latin-1) before this
treatment. -/
theorem C4_prepare_text (flag : Bool) (t : PyText) (s : List Char) (data : List UInt8) :
    prepareText true (.pystr s) = s ∧
    prepareText flag .pynone = [] ∧
    prepareText flag (.pybytes data) = prepareText flag (.pystr (data.map decodeLatin1)) ∧
    prepareText false (.pystr s) = s.map latin1Replace ∧
    (∀ c ∈ prepareText false t, c.toNat ≤ 255) := by
  refine ⟨rfl, by cases flag <;> rfl, by cases flag <;> rfl, rfl, ?_⟩
  intro c hc
  cases t with
  | pynone => simp [prepareText] at hc
  | pybytes d =>
    simp only [prepareText, pyTextToStr, Bool.false_eq_true, if_false] at hc
    rcases List.mem_map.mp hc with ⟨x, _, rfl⟩
    exact latin1Replace_le x
  | pystr s' =>
    simp only [prepareText, pyTextToStr, Bool.false_eq_true, if_false] at hc
    rcases List.mem_map.mp hc with ⟨x, _, rfl⟩
    exact latin1Replace_le x

/-! ### Claim C3 — the `StoryPDF.multi_cell` fallback -/

theorem effectiveWidth_pos (st : PDFState) (w : ℚ) : 0 < effectiveWidth st w := by
  unfold effectiveWidth
  dsimp only
  by_cases hw : w = 0
  · rw [if_pos hw]
    by_cases hp : st.w - st.l_margin - st.r_margin ≤ 0
    · rw [if_pos hp]; exact lt_of_lt_of_le one_pos (le_max_right _ _)
    · rw [if_neg hp]; push_neg at hp; exact hp
  · rw [if_neg hw]
    by_cases hp : w ≤ 0
    · rw [if_pos hp]; exact lt_of_lt_of_le one_pos (le_max_right _ _)
    · rw [if_neg hp]; push_neg at hp; exact hp

theorem fallbackRender_ok (st : PDFState) (oracle : ℚ → List Char → Bool) (effW h : ℚ)
    (lines : List (List Char))
    (hall : ∀ line ∈ lines, oracle effW (spaceOut line) = false) :
    fallbackRender st oracle effW h lines =
      .ok (List.intercalate [PDFEvent.ln h]
        (lines.map (fun line =>
          [PDFEvent.setX st.l_margin, PDFEvent.superMultiCell effW h (spaceOut line)]))) := by
  induction lines with
  | nil => rfl
  | cons line rest ih =>
    rw [fallbackRender]
    rw [if_neg (by simp [hall line (List.mem_cons_self _ _)])]
    rw [ih (fun l hl => hall l (List.mem_cons_of_mem _ hl))]
    cases rest with
    | nil => simp [List.intercalate]
    | cons r rs =>
      simp [List.intercalate, List.intersperse_cons_cons]

/-- C3: with Unicode fonts registered, an `FPDFException` from the
underlying `multi_cell` propagates unchanged; with built-in fonts only,
the exception is not propagated — every newline-separated line of the
prepared text is re-rendered from the left margin, with a space between
every pair of characters, at the (always positive) effective width, with a
line break between lines. -/
theorem C3_multi_cell (st : PDFState) (oracle : ℚ → List Char → Bool) (w h : ℚ)
    (txt : PyText) :
    0 < effectiveWidth st w ∧
    (st.uses_unicode_fonts = true →
      oracle w (prepareText st.uses_unicode_fonts txt) = true →
      StoryPDF_multi_cell st oracle w h txt = .error ()) ∧
    (st.uses_unicode_fonts = false →
      oracle w (prepareText st.uses_unicode_fonts txt) = true →
      (∀ line ∈ pySplit '\n' (prepareText st.uses_unicode_fonts txt),
        oracle (effectiveWidth st w) (spaceOut line) = false) →
      StoryPDF_multi_cell st oracle w h txt =
        .ok (List.intercalate [PDFEvent.ln h]
          ((pySplit '\n' (prepareText st.uses_unicode_fonts txt)).map
            (fun line => [PDFEvent.setX st.l_margin,
              PDFEvent.superMultiCell (effectiveWidth st w) h (spaceOut line)])))) := by
  refine ⟨effectiveWidth_pos st w, ?_, ?_⟩
  · intro hu ho
    rw [StoryPDF_multi_cell]
    rw [if_neg (by simp [ho]), if_pos hu]
  · intro hu ho hall
    rw [StoryPDF_multi_cell]
    rw [if_neg (by simp [ho]), if_neg (by simp [hu])]
    exact fallbackRender_ok st oracle _ h _ hall

/-- Witness for C3: a concrete fallback run (built-in fonts, first call
raising) and a concrete propagation (Unicode fonts, call raising). -/
theorem C3_multi_cell_witness :
    (0 : ℚ) < effectiveWidth ⟨1, 0, 0, false⟩ 0 ∧
    StoryPDF_multi_cell ⟨1, 0, 0, false⟩ (fun wd _ => decide (wd = 0)) 0 7
        (.pystr ['a', 'b', '\n', 'c']) =
      .ok (List.intercalate [PDFEvent.ln 7]
        ((pySplit '\n' (prepareText false (.pystr ['a', 'b', '\n', 'c']))).map
          (fun line => [PDFEvent.setX 0,
            PDFEvent.superMultiCell (effectiveWidth ⟨1, 0, 0, false⟩ 0) 7
              (spaceOut line)]))) ∧
    StoryPDF_multi_cell ⟨1, 0, 0, true⟩ (fun _ _ => true) 5 7 (.pystr ['a']) =
      .error () := by
  refine ⟨(C3_multi_cell ⟨1, 0, 0, false⟩ (fun wd _ => decide (wd = 0)) 0 7
      (.pystr ['a', 'b', '\n', 'c'])).1, ?_, ?_⟩
  · refine (C3_multi_cell ⟨1, 0, 0, false⟩ (fun wd _ => decide (wd = 0)) 0 7
      (.pystr ['a', 'b', '\n', 'c'])).2.2 rfl (by simp) (fun line _ => ?_)
    show decide ((effectiveWidth ⟨1, 0, 0, false⟩ 0 : ℚ) = 0) = false
    norm_num [effectiveWidth]
  · exact (C3_multi_cell ⟨1, 0, 0, true⟩ (fun _ _ => true) 5 7 (.pystr ['a'])).2.1 rfl rfl

/-- Witness for C5 on a concrete fully valid parameter dictionary. -/
theorem C5_validate_params_witness :
    validate_params
      { story_count := 2, learning_language := some "es", native_language := some "en",
        level_schema := some "CEFR", level := some "A2", topics := .pylist ["food"],
        prompt_seed := "" } = (true, none) :=
  (C5_validate_params _).1.mpr
    ⟨⟨by norm_num, by norm_num⟩, ⟨"es", rfl, by decide⟩, ⟨"en", rfl, by decide⟩,
      by decide, Or.inl rfl, ⟨"A2", rfl, by decide⟩,
      fun items h => by cases h; decide,
      fun h => absurd rfl h⟩

/-! ### Claim C7 — `build_zip_bundle` -/

theorem build_zip_foldl (files : List (String × List UInt8)) :
    ∀ acc, files.foldl (fun acc fd => writestr acc fd.1 (.bytes fd.2)) acc =
      acc ++ files.map (fun fd => (fd.1, ZipData.bytes fd.2)) := by
  induction files with
  | nil => intro acc; simp
  | cons fd rest ih =>
    intro acc
    rw [List.foldl_cons, ih]
    simp [writestr]

/-- C7: the archive built by `build_zip_bundle` consists of exactly the
provided `(filename, bytes)` entries in order followed by a final
`manifest.json` entry holding the manifest string; in particular the entry
names are the filenames followed by `"manifest.json"`. -/
theorem C7_build_zip_bundle (files : List (String × List UInt8)) (manifest : String) :
    build_zip_bundle files manifest =
      files.map (fun fd => (fd.1, ZipData.bytes fd.2)) ++
        [("manifest.json", ZipData.text manifest)] ∧
    (build_zip_bundle files manifest).map Prod.fst =
      files.map Prod.fst ++ ["manifest.json"] := by
  have h : build_zip_bundle files manifest =
      files.map (fun fd => (fd.1, ZipData.bytes fd.2)) ++
        [("manifest.json", ZipData.text manifest)] := by
    rw [build_zip_bundle, build_zip_foldl files []]
    simp [writestr]
  refine ⟨h, ?_⟩
  rw [h]
  simp

/-! ### Claim C9 — invariants of `_parse_story_payload` -/

theorem cleanSections_spec (items : List PyVal) :
    ∀ s ∈ cleanSections items, s.original ≠ [] ∧ ∃ r, s.original = pyStrip r := by
  induction items with
  | nil => simp [cleanSections]
  | cons v rest ih =>
    cases v with
    | pdict entries =>
      intro s hs
      rw [cleanSections] at hs
      by_cases ho : pyStrip (pyStr (pyDictGet entries ("original".toList) (.pstr []))) = []
      · rw [if_pos ho] at hs
        exact ih s hs
      · rw [if_neg ho] at hs
        rcases List.mem_cons.mp hs with rfl | hs'
        · exact ⟨ho, _, rfl⟩
        · exact ih s hs'
    | pstr a => intro s hs; simp only [cleanSections] at hs; exact ih s hs
    | pint a => intro s hs; simp only [cleanSections] at hs; exact ih s hs
    | pbool a => intro s hs; simp only [cleanSections] at hs; exact ih s hs
    | pnone => intro s hs; simp only [cleanSections] at hs; exact ih s hs
    | plist a => intro s hs; simp only [cleanSections] at hs; exact ih s hs

theorem cleanGlossary_spec (items : List PyVal) :
    ∀ g ∈ cleanGlossary items, g.1 ≠ [] ∧ g.2 ≠ [] := by
  induction items with
  | nil => simp [cleanGlossary]
  | cons v rest ih =>
    cases v with
    | pdict entries =>
      intro g hg
      rw [cleanGlossary] at hg
      by_cases hok : pyStrip (pyStr (pyDictGet entries ("term".toList) (.pstr []))) ≠ [] ∧
          pyStrip (pyStr (pyDictGet entries ("definition".toList) (.pstr []))) ≠ []
      · rw [if_pos hok] at hg
        rcases List.mem_cons.mp hg with rfl | hg'
        · exact hok
        · exact ih g hg'
      · rw [if_neg hok] at hg
        exact ih g hg
    | pstr a => intro g hg; simp only [cleanGlossary] at hg; exact ih g hg
    | pint a => intro g hg; simp only [cleanGlossary] at hg; exact ih g hg
    | pbool a => intro g hg; simp only [cleanGlossary] at hg; exact ih g hg
    | pnone => intro g hg; simp only [cleanGlossary] at hg; exact ih g hg
    | plist a => intro g hg; simp only [cleanGlossary] at hg; exact ih g hg

theorem cleanNotes_spec (items : List PyVal) : ∀ n ∈ cleanNotes items, n ≠ [] := by
  induction items with
  | nil => simp [cleanNotes]
  | cons v rest ih =>
    intro n hn
    rw [cleanNotes] at hn
    by_cases hv : pyStrip (pyStr v) = []
    · rw [if_pos hv] at hn
      exact ih n hn
    · rw [if_neg hv] at hn
      rcases List.mem_cons.mp hn with rfl | hn'
      · exact hv
      · exact ih n hn'

theorem sectionsOf_spec (v : PyVal) :
    ∀ s ∈ sectionsOf v, s.original ≠ [] ∧ ∃ r, s.original = pyStrip r := by
  cases v with
  | plist items => exact cleanSections_spec items
  | pstr a => intro s hs; simp [sectionsOf] at hs
  | pint a => intro s hs; simp [sectionsOf] at hs
  | pbool a => intro s hs; simp [sectionsOf] at hs
  | pnone => intro s hs; simp [sectionsOf] at hs
  | pdict a => intro s hs; simp [sectionsOf] at hs

theorem glossaryOf_spec (v : PyVal) : ∀ g ∈ glossaryOf v, g.1 ≠ [] ∧ g.2 ≠ [] := by
  cases v with
  | plist items => exact cleanGlossary_spec items
  | pstr a => intro g hg; simp [glossaryOf] at hg
  | pint a => intro g hg; simp [glossaryOf] at hg
  | pbool a => intro g hg; simp [glossaryOf] at hg
  | pnone => intro g hg; simp [glossaryOf] at hg
  | pdict a => intro g hg; simp [glossaryOf] at hg

theorem notesOf_spec (v : PyVal) : ∀ n ∈ notesOf v, n ≠ [] := by
  cases v with
  | plist items => exact cleanNotes_spec items
  | pstr a => intro n hn; simp [notesOf] at hn
  | pint a => intro n hn; simp [notesOf] at hn
  | pbool a => intro n hn; simp [notesOf] at hn
  | pnone => intro n hn; simp [notesOf] at hn
  | pdict a => intro n hn; simp [notesOf] at hn

theorem dropWhile_eq_self_of_head (p : Char → Bool) (l : List Char)
    (h : ∀ c, l.head? = some c → p c = false) : l.dropWhile p = l := by
  cases l with
  | nil => rfl
  | cons x xs => rw [List.dropWhile_cons, if_neg (by simp [h x rfl])]

theorem pyStrip_eq_self (l : List Char)
    (hh : ∀ c, l.head? = some c → pyIsSpace c = false)
    (hl : ∀ c, l.getLast? = some c → pyIsSpace c = false) : pyStrip l = l := by
  rw [pyStrip, pyLStrip, dropWhile_eq_self_of_head _ _ hh, pyRStrip,
    dropWhile_eq_self_of_head, List.reverse_reverse]
  intro c hc
  rw [List.head?_reverse] at hc
  exact hl c hc

theorem joinBlank_singleton (x : List Char) : joinBlank [x] = x := by
  simp [joinBlank, List.intercalate]

theorem joinBlank_cons_cons (x y : List Char) (l : List (List Char)) :
    joinBlank (x :: y :: l) = x ++ ['\n', '\n'] ++ joinBlank (y :: l) := by
  simp [joinBlank, List.intercalate, List.intersperse_cons_cons]

theorem joinBlank_ne_nil (x : List Char) (rest : List (List Char)) (hx : x ≠ []) :
    joinBlank (x :: rest) ≠ [] := by
  cases rest with
  | nil => rw [joinBlank_singleton]; exact hx
  | cons y ys =>
    rw [joinBlank_cons_cons]
    simp [hx]

theorem joinBlank_boundary (ls : List (List Char))
    (h : ∀ x ∈ ls, x ≠ [] ∧ (∀ c, x.head? = some c → pyIsSpace c = false) ∧
      (∀ c, x.getLast? = some c → pyIsSpace c = false)) :
    (∀ c, (joinBlank ls).head? = some c → pyIsSpace c = false) ∧
    (∀ c, (joinBlank ls).getLast? = some c → pyIsSpace c = false) := by
  induction ls with
  | nil =>
    constructor <;> intro c hc <;> simp [joinBlank, List.intercalate] at hc
  | cons x rest ih =>
    obtain ⟨hxne, hxh, hxl⟩ := h x (List.mem_cons_self _ _)
    cases rest with
    | nil => rw [joinBlank_singleton]; exact ⟨hxh, hxl⟩
    | cons y ys =>
      rw [joinBlank_cons_cons]
      have ih' := ih (fun z hz => h z (List.mem_cons_of_mem _ hz))
      have hyne : joinBlank (y :: ys) ≠ [] :=
        joinBlank_ne_nil y ys (h y (List.mem_cons_of_mem _ (List.mem_cons_self _ _))).1
      constructor
      · intro c hc
        rw [List.append_assoc, head?_append_left _ _ hxne] at hc
        exact hxh c hc
      · intro c hc
        rw [List.append_assoc, List.getLast?_append_of_ne_nil, List.getLast?_append_of_ne_nil]
          at hc
        · exact ih'.2 c hc
        · exact hyne
        · simp [hyne]

theorem pyStrip_joinBlank (secs : List StorySection)
    (h : ∀ s ∈ secs, s.original ≠ [] ∧ ∃ r, s.original = pyStrip r) :
    pyStrip (joinBlank (secs.map (·.original))) = joinBlank (secs.map (·.original)) := by
  have hprops : ∀ z ∈ secs.map (·.original), z ≠ [] ∧
      (∀ c, z.head? = some c → pyIsSpace c = false) ∧
      (∀ c, z.getLast? = some c → pyIsSpace c = false) := by
    intro z hz
    rcases List.mem_map.mp hz with ⟨s, hs, rfl⟩
    obtain ⟨hne, r, hr⟩ := h s hs
    exact ⟨hne, fun c hc => by rw [hr] at hc; exact pyStrip_head?_not_space _ _ hc,
      fun c hc => by rw [hr] at hc; exact pyStrip_getLast?_not_space _ _ hc⟩
  have hb := joinBlank_boundary _ hprops
  exact pyStrip_eq_self _ hb.1 hb.2

/-- C9: every dictionary returned by `_parse_story_payload` has only
nonempty section originals, glossary entries with nonempty term and
definition, nonempty grammar notes, practice ideas and extra notes, and a
body equal to the section originals joined by blank lines. -/
theorem C9_parse_story_payload (jsonLoads : List Char → Option PyVal) (payload : List Char)
    (st : Story) (h : parse_story_payload jsonLoads payload = .ok st) :
    (∀ sec ∈ st.reading_sections, sec.original ≠ []) ∧
    (∀ g ∈ st.glossary, g.1 ≠ [] ∧ g.2 ≠ []) ∧
    (∀ n ∈ st.grammar_notes, n ≠ []) ∧
    (∀ n ∈ st.practice_ideas, n ≠ []) ∧
    (∀ n ∈ st.extra_notes, n ≠ []) ∧
    st.body = joinBlank (st.reading_sections.map (·.original)) := by
  rw [parse_story_payload] at h
  cases hrep : repair_json_payload jsonLoads payload with
  | error e => cases e; rw [hrep] at h; simp at h
  | ok data =>
    rw [hrep] at h
    dsimp only at h
    rw [cleanStory.eq_def] at h
    cases data with
    | pstr a => simp at h
    | pint a => simp at h
    | pbool a => simp at h
    | pnone => simp at h
    | plist a => simp at h
    | pdict entries =>
      dsimp only at h
      cases hti : pyStripAttr (pyDictGet entries ("title".toList)
          (.pstr ("Untitled Story".toList))) with
      | error e => cases e; rw [hti] at h; simp at h
      | ok title =>
        rw [hti] at h
        dsimp only at h
        injection h with h'
        subst h'
        refine ⟨fun sec hs => (sectionsOf_spec _ sec hs).1, glossaryOf_spec _,
          notesOf_spec _, notesOf_spec _, notesOf_spec _, ?_⟩
        exact pyStrip_joinBlank _ (sectionsOf_spec _)

/-- Witness for C9 on a concretely parsed payload. -/
theorem C9_parse_story_payload_witness :
    (∀ sec ∈ [({ original := "Hola".toList, phonetics := [], translation := [] } :
        StorySection)], sec.original ≠ []) ∧
    (∀ g ∈ ([] : List (List Char × List Char)), g.1 ≠ [] ∧ g.2 ≠ []) ∧
    (∀ n ∈ ([] : List (List Char)), n ≠ []) ∧
    (∀ n ∈ ([] : List (List Char)), n ≠ []) ∧
    (∀ n ∈ ([] : List (List Char)), n ≠ []) ∧
    "Hola".toList = joinBlank
      ([({ original := "Hola".toList, phonetics := [], translation := [] } :
        StorySection)].map (·.original)) :=
  C9_parse_story_payload (fun _ => some sampleStoryJson) ['x']
    { title := "T".toList, summary := [], body := "Hola".toList,
      reading_sections := [{ original := "Hola".toList, phonetics := [], translation := [] }],
      translation := [], glossary := [], grammar_notes := [], practice_ideas := [],
      extra_notes := [] }
    (by rfl)

/-! ### Claim C2 — `_repair_json_payload` -/

theorem firstIdx_none_iff (c : Char) (l : List Char) :
    firstIdx c l = none ↔ ∀ k, l.get? k ≠ some c := by
  induction l with
  | nil => simp [firstIdx]
  | cons x xs ih =>
    rw [firstIdx]
    by_cases hx : x = c
    · rw [if_pos hx]
      refine iff_of_false (by simp) ?_
      intro hall
      exact hall 0 (by simp [hx])
    · rw [if_neg hx]
      rw [Option.map_eq_none', ih]
      constructor
      · intro hall k
        cases k with
        | zero =>
          simp only [List.get?_cons_zero]
          intro hq
          exact hx (by injection hq)
        | succ k => simp only [List.get?_cons_succ]; exact hall k
      · intro hall k
        have hk := hall (k + 1)
        simpa using hk

theorem firstIdx_some_iff (c : Char) (l : List Char) (i : Nat) :
    firstIdx c l = some i ↔
      (l.get? i = some c ∧ ∀ k, k < i → l.get? k ≠ some c) := by
  induction l generalizing i with
  | nil => simp [firstIdx]
  | cons x xs ih =>
    rw [firstIdx]
    by_cases hx : x = c
    · rw [if_pos hx]
      constructor
      · intro h
        injection h with h'
        subst h'
        exact ⟨by simp [hx], fun k hk => by omega⟩
      · intro ⟨hg, hmin⟩
        cases i with
        | zero => rfl
        | succ j =>
          exact absurd (show (x :: xs).get? 0 = some c by simp [hx]) (hmin 0 (by omega))
    · rw [if_neg hx]
      cases i with
      | zero =>
        refine iff_of_false ?_ ?_
        · intro h
          rcases Option.map_eq_some'.mp h with ⟨a, _, ha⟩
          omega
        · intro ⟨hg, _⟩
          simp only [List.get?_cons_zero] at hg
          exact hx (by injection hg)
      | succ j =>
        rw [Option.map_eq_some']
        constructor
        · intro ⟨a, ha, haj⟩
          have haj' : a = j := by omega
          rw [haj'] at ha
          obtain ⟨hg, hmin⟩ := (ih j).mp ha
          refine ⟨by simpa using hg, ?_⟩
          intro k hk
          cases k with
          | zero =>
            simp only [List.get?_cons_zero]
            intro hq
            exact hx (by injection hq)
          | succ k' => simp only [List.get?_cons_succ]; exact hmin k' (by omega)
        · intro ⟨hg, hmin⟩
          refine ⟨j, (ih j).mpr ⟨by simpa using hg, ?_⟩, rfl⟩
          intro k hk
          have := hmin (k + 1) (by omega)
          simpa using this

theorem length_gt_of_get? {s : List Char} {j : Nat} {c : Char} (h : s.get? j = some c) :
    j < s.length := by
  by_contra hj
  push_neg at hj
  rw [List.get?_eq_none.mpr hj] at h
  cases h

theorem get?_reverse' (s : List Char) (i : Nat) (hi : i < s.length) :
    s.reverse.get? i = s.get? (s.length - 1 - i) := List.get?_reverse hi

theorem pyFind_occurrence (s : List Char) (c : Char) (h : pyFind s c ≠ -1) :
    ∃ i : Nat, pyFind s c = (i : Int) ∧ s.get? i = some c := by
  rw [pyFind.eq_def] at h ⊢
  cases hf : firstIdx c s with
  | none => rw [hf] at h; exact absurd rfl h
  | some i =>
    exact ⟨i, rfl, ((firstIdx_some_iff _ _ _).mp hf).1⟩

theorem pyRFind_occurrence (s : List Char) (c : Char) (h : pyRFind s c ≠ -1) :
    ∃ j : Nat, pyRFind s c = (j : Int) ∧ s.get? j = some c := by
  rw [pyRFind.eq_def] at h ⊢
  cases hf : firstIdx c s.reverse with
  | none => rw [hf] at h; exact absurd rfl h
  | some i =>
    have hg := ((firstIdx_some_iff _ _ _).mp hf).1
    have hi : i < s.length := by
      have := length_gt_of_get? hg
      simpa using this
    refine ⟨s.length - 1 - i, rfl, ?_⟩
    rw [get?_reverse' s i hi] at hg
    exact hg

theorem pyRFind_eq_coe_iff (s : List Char) (c : Char) (j : Nat) :
    pyRFind s c = (j : Int) ↔
      (s.get? j = some c ∧ ∀ k, j < k → s.get? k ≠ some c) := by
  rw [pyRFind.eq_def]
  cases hf : firstIdx c s.reverse with
  | none =>
    dsimp only
    refine iff_of_false (by omega) ?_
    rintro ⟨hg, _⟩
    have hj : j < s.length := length_gt_of_get? hg
    refine (firstIdx_none_iff c s.reverse).mp hf (s.length - 1 - j) ?_
    rw [get?_reverse' s (s.length - 1 - j) (by omega)]
    have heq : s.length - 1 - (s.length - 1 - j) = j := by omega
    rw [heq]
    exact hg
  | some i =>
    dsimp only
    obtain ⟨hg, hmin⟩ := (firstIdx_some_iff c s.reverse i).mp hf
    have hi : i < s.length := by
      have := length_gt_of_get? hg
      simpa using this
    rw [get?_reverse' s i hi] at hg
    constructor
    · intro hcast
      have hj : s.length - 1 - i = j := by exact_mod_cast hcast
      subst hj
      refine ⟨hg, ?_⟩
      intro k hk
      by_cases hkl : k < s.length
      · have hrev : s.reverse.get? (s.length - 1 - k) = s.get? k := by
          rw [get?_reverse' s (s.length - 1 - k) (by omega)]
          congr 1
          omega
        have hne := hmin (s.length - 1 - k) (by omega)
        rw [hrev] at hne
        exact hne
      · push_neg at hkl
        rw [List.get?_eq_none.mpr hkl]
        simp
    · rintro ⟨hgj, hmax⟩
      have hj : j < s.length := length_gt_of_get? hgj
      have h1 : s.length - 1 - i ≤ j := by
        by_contra hlt
        push_neg at hlt
        exact hmax _ hlt hg
      have h2 : i ≤ s.length - 1 - j := by
        by_contra hlt
        push_neg at hlt
        refine hmin (s.length - 1 - j) hlt ?_
        rw [get?_reverse' s (s.length - 1 - j) (by omega)]
        have heq : s.length - 1 - (s.length - 1 - j) = j := by omega
        rw [heq]
        exact hgj
      have heq : s.length - 1 - i = j := by omega
      rw [heq]

/-- C2: `_repair_json_payload` returns the JSON parse of the stripped
payload when it parses; otherwise, when a `'{'` occurs strictly before the
last `'}'`, it parses the slice from the first `'{'` through the last
`'}'` and returns that parse when valid; in every other case it raises
`ValueError`. -/
theorem C2_repair_json_payload (jsonLoads : List Char → Option PyVal) (payload : List Char) :
    (∀ v, jsonLoads (pyStrip payload) = some v →
      repair_json_payload jsonLoads payload = .ok v) ∧
    (jsonLoads (pyStrip payload) = none →
      ∀ i j, i < j →
        (pyStrip payload).get? i = some openBrace →
        (∀ k, k < i → (pyStrip payload).get? k ≠ some openBrace) →
        (pyStrip payload).get? j = some closeBrace →
        (∀ k, j < k → (pyStrip payload).get? k ≠ some closeBrace) →
        repair_json_payload jsonLoads payload =
          (match jsonLoads (((pyStrip payload).take (j + 1)).drop i) with
            | some v => Except.ok v
            | none => Except.error ())) ∧
    (jsonLoads (pyStrip payload) = none →
      (¬∃ i j, i < j ∧ (pyStrip payload).get? i = some openBrace ∧
        (pyStrip payload).get? j = some closeBrace) →
      repair_json_payload jsonLoads payload = .error ()) := by
  refine ⟨?_, ?_, ?_⟩
  · intro v hv
    unfold repair_json_payload
    dsimp only
    rw [hv]
  · intro hn i j hij hgi hmini hgj hmaxj
    unfold repair_json_payload
    dsimp only
    rw [hn]
    have hfind : pyFind (pyStrip payload) openBrace = (i : Int) := by
      rw [pyFind.eq_def, (firstIdx_some_iff openBrace (pyStrip payload) i).mpr ⟨hgi, hmini⟩]
    have hrfind : pyRFind (pyStrip payload) closeBrace = (j : Int) :=
      (pyRFind_eq_coe_iff _ _ _).mpr ⟨hgj, hmaxj⟩
    rw [hfind, hrfind, if_pos ⟨by omega, by omega, by exact_mod_cast hij⟩]
    have hti : (i : Int).toNat = i := Int.toNat_natCast i
    have htj : (j : Int).toNat = j := Int.toNat_natCast j
    rw [hti, htj]
    rfl
  · intro hn hno
    unfold repair_json_payload
    dsimp only
    rw [hn]
    rw [if_neg]
    rintro ⟨h1, h2, h3⟩
    obtain ⟨i, hfi, hgi⟩ := pyFind_occurrence _ _ h1
    obtain ⟨j, hfj, hgj⟩ := pyRFind_occurrence _ _ h2
    refine hno ⟨i, j, ?_, hgi, hgj⟩
    rw [hfi, hfj] at h3
    exact_mod_cast h3

/-- Witness for C2 at a concrete payload with junk around the braces. -/
theorem C2_repair_json_payload_witness :
    repair_json_payload
      (fun s => if s = [openBrace, closeBrace] then some (.pdict []) else none)
      ['x', openBrace, closeBrace] = .ok (.pdict []) := by
  have hnone : (fun s => if s = [openBrace, closeBrace] then some (PyVal.pdict []) else none)
      (pyStrip ['x', openBrace, closeBrace]) = none := by
    show (if pyStrip ['x', openBrace, closeBrace] = [openBrace, closeBrace]
      then some (PyVal.pdict []) else none) = none
    rw [if_neg (by decide)]
  have hlen : (pyStrip ['x', openBrace, closeBrace]).length = 3 := by decide
  refine (C2_repair_json_payload
    (fun s => if s = [openBrace, closeBrace] then some (.pdict []) else none)
    ['x', openBrace, closeBrace]).2.1 hnone 1 2 (by omega)
    (by decide) ?_ (by decide) ?_ |>.trans ?_
  · intro k hk
    interval_cases k
    · decide
  · intro k hk
    rw [List.get?_eq_none.mpr (by omega)]
    simp
  · show (match (if List.drop 1 (List.take 3 (pyStrip ['x', openBrace, closeBrace])) =
        [openBrace, closeBrace] then some (PyVal.pdict []) else none) with
      | some v => Except.ok v
      | none => Except.error ()) = Except.ok (PyVal.pdict [])
    rw [if_pos (by decide)]

/-! ### Claim C1 — the `generate_story` retry loop -/

theorem generateLoop_oracle_congr (jsonLoads : List Char → Option PyVal)
    (o₁ o₂ : Nat → LLMResponse) :
    ∀ fuel attempt maxA maxT lastE,
      (∀ k, attempt ≤ k → k < attempt + fuel → o₁ k = o₂ k) →
      generateLoop jsonLoads o₁ fuel attempt maxA maxT lastE =
        generateLoop jsonLoads o₂ fuel attempt maxA maxT lastE := by
  intro fuel
  induction fuel with
  | zero => intro attempt maxA maxT lastE _; rfl
  | succ fuel ih =>
    intro attempt maxA maxT lastE h
    have hresp : o₁ attempt = o₂ attempt := h attempt (le_refl _) (by omega)
    have hrec : ∀ maxT' lastE',
        generateLoop jsonLoads o₁ fuel (attempt + 1) maxA maxT' lastE' =
          generateLoop jsonLoads o₂ fuel (attempt + 1) maxA maxT' lastE' :=
      fun maxT' lastE' =>
        ih (attempt + 1) maxA maxT' lastE' (fun k hk1 hk2 => h k (by omega) (by omega))
    rw [generateLoop, generateLoop, hresp]
    by_cases h1 : (o₂ attempt).finish_reason ≠ [] ∧
        (o₂ attempt).finish_reason ≠ "stop".toList
    · rw [if_pos h1, if_pos h1]
      by_cases h2 : (o₂ attempt).finish_reason = "length".toList ∧ attempt + 1 < maxA
      · rw [if_pos h2, if_pos h2]
        exact hrec _ _
      · rw [if_neg h2, if_neg h2]
    · rw [if_neg h1, if_neg h1]
      cases hcc : (o₂ attempt).content with
      | none => rfl
      | some content =>
        dsimp only
        by_cases hc : content = []
        · rw [if_pos hc, if_pos hc]
        · rw [if_neg hc, if_neg hc]
          cases hp : parse_story_payload jsonLoads content with
          | ok story => rfl
          | error e =>
            cases e with
            | valueError preview =>
              dsimp only
              by_cases h3 : attempt + 1 < maxA
              · rw [if_pos h3, if_pos h3]
                exact hrec _ _
              · rw [if_neg h3, if_neg h3]
            | attributeError => rfl

theorem generateLoop_exhaust (jsonLoads : List Char → Option PyVal)
    (oracle : Nat → LLMResponse) :
    ∀ fuel attempt maxT lastE,
      1 ≤ fuel → attempt + fuel = 5 →
      (∀ k, attempt ≤ k → k < 5 →
        (oracle k).finish_reason = "stop".toList ∧
        ∃ c, (oracle k).content = some c ∧ c ≠ [] ∧
          ∃ pv, parse_story_payload jsonLoads c = .error (.valueError pv)) →
      ∃ c₄ pv₄, (oracle 4).content = some c₄ ∧
        parse_story_payload jsonLoads c₄ = .error (.valueError pv₄) ∧
        generateLoop jsonLoads oracle fuel attempt 5 maxT lastE =
          .error (.parseValueError pv₄) := by
  intro fuel
  induction fuel with
  | zero => intro attempt maxT lastE hf; omega
  | succ fuel ih =>
    intro attempt maxT lastE _ hsum h
    obtain ⟨hfr, c, hcc, hcne, pv, hpv⟩ := h attempt (le_refl _) (by omega)
    rw [generateLoop, hfr, hcc]
    rw [if_neg (by intro ⟨_, hne⟩; exact hne rfl)]
    dsimp only
    rw [if_neg hcne, hpv]
    dsimp only
    by_cases hfz : fuel = 0
    · subst hfz
      have hat : attempt = 4 := by omega
      subst hat
      rw [if_neg (by omega)]
      exact ⟨c, pv, hcc, hpv, rfl⟩
    · rw [if_pos (by omega)]
      exact ih (attempt + 1) _ _ (by omega) (by omega)
        (fun k hk1 hk2 => h k (by omega) hk2)

theorem nextBudgetLength_spec (mt : Nat) :
    nextBudgetLength mt ≤ 7200 ∧ (mt ≤ 7200 → mt ≤ nextBudgetLength mt) := by
  unfold nextBudgetLength
  omega

theorem nextBudgetParse_spec (mt : Nat) (t : Bool) :
    nextBudgetParse mt t ≤ 7200 ∧ (mt ≤ 7200 → mt ≤ nextBudgetParse mt t) := by
  unfold nextBudgetParse
  cases t with
  | true => rw [if_pos rfl]; omega
  | false => rw [if_neg (by simp)]; omega

/-- C1: `generate_story` makes at most 5 sequential attempts — its result
depends only on the first five API responses; when every attempt finishes
with `"stop"` and nonempty content whose parse raises `ValueError`, it
raises the parse error of the fifth (last) attempt; and each retry budget
is the previous budget enlarged (never shrunk while within range) and
capped at 7200. -/
theorem C1_generate_story (jsonLoads : List Char → Option PyVal) (p : GenParams)
    (o₁ o₂ oracle : Nat → LLMResponse) :
    ((∀ k, k < 5 → o₁ k = o₂ k) →
      generate_story jsonLoads p o₁ = generate_story jsonLoads p o₂) ∧
    ((∀ k, k < 5 →
        (oracle k).finish_reason = "stop".toList ∧
        ∃ c, (oracle k).content = some c ∧ c ≠ [] ∧
          ∃ pv, parse_story_payload jsonLoads c = .error (.valueError pv)) →
      ∃ c₄ pv₄, (oracle 4).content = some c₄ ∧
        parse_story_payload jsonLoads c₄ = .error (.valueError pv₄) ∧
        generate_story jsonLoads p oracle = .error (.parseValueError pv₄)) ∧
    (∀ mt, nextBudgetLength mt ≤ 7200 ∧ (mt ≤ 7200 → mt ≤ nextBudgetLength mt)) ∧
    (∀ mt t, nextBudgetParse mt t ≤ 7200 ∧ (mt ≤ 7200 → mt ≤ nextBudgetParse mt t)) := by
  refine ⟨?_, ?_, nextBudgetLength_spec, nextBudgetParse_spec⟩
  · intro h
    exact generateLoop_oracle_congr jsonLoads o₁ o₂ 5 0 5 (initialMaxTokens p) none
      (fun k _ hk2 => h k (by omega))
  · intro h
    exact generateLoop_exhaust jsonLoads oracle 5 0 (initialMaxTokens p) none
      (by omega) (by omega) (fun k _ hk2 => h k hk2)

/-- Witness for C1: a constant oracle whose payload never parses exhausts
all five attempts and raises the final parse error. -/
theorem C1_generate_story_witness :
    generate_story (fun _ => none) {} (fun _ => ⟨"stop".toList, some ['b']⟩) =
      .error (.parseValueError ['b']) := by
  obtain ⟨c₄, pv₄, hc, hp, hres⟩ :=
    (C1_generate_story (fun _ => none) {}
      (fun _ => ⟨"stop".toList, some ['b']⟩) (fun _ => ⟨"stop".toList, some ['b']⟩)
      (fun _ => ⟨"stop".toList, some ['b']⟩)).2.1
      (fun k _ => ⟨rfl, ['b'], rfl, by decide, ['b'], by rfl⟩)
  have hc' : (['b'] : List Char) = c₄ := by injection hc
  subst hc'
  have hp' : parse_story_payload (fun _ => none) ['b'] =
      .error (.valueError ['b']) := by rfl
  rw [hp'] at hp
  injection hp with hpe
  injection hpe with hpv
  rw [← hpv] at hres
  exact hres

/-! ### Claim C8 — `synthesize_audio` -/

/-- C8 is false as stated: the `read` and `to_bytes` shapes are selected by
mere presence, so a response whose `read()` returns empty bytes still
raises `AudioSynthesisError` even though its `to_bytes()` shape yields
audio data. -/
theorem C8_counterexample :
    synthesize_audio ['h', 'i']
      (.ok { read := some [], to_bytes := some [1] }) = .error .noData ∧
    pyStrip ['h', 'i'] ≠ [] ∧
    someShapeYieldsAudio { read := some [], to_bytes := some [1] } := by
  refine ⟨by rfl, by decide, ?_⟩
  right; right; right; left
  decide

/-- C8 (amended: the response shapes are probed in order, with `read` and
`to_bytes` selected by presence rather than by their result):
`synthesize_audio` raises exactly when the text strips to empty (the API
result is then never consulted), when the API call fails, or when the
first selected shape yields no or empty bytes; otherwise it returns the
selected nonempty bytes. -/
theorem C8_synthesize_audio (text : List Char) (api : Except Unit TTSResponse) :
    (pyStrip text = [] →
      (∀ api', synthesize_audio text api = synthesize_audio text api') ∧
      synthesize_audio text api = .error .emptyText) ∧
    (pyStrip text ≠ [] → api = .error () →
      synthesize_audio text api = .error .apiFailure) ∧
    (∀ r, pyStrip text ≠ [] → api = .ok r →
      ((selectAudioBytes r = none ∨ selectAudioBytes r = some []) →
        synthesize_audio text api = .error .noData) ∧
      (∀ bs, selectAudioBytes r = some bs → bs ≠ [] →
        synthesize_audio text api = .ok bs)) := by
  refine ⟨?_, ?_, ?_⟩
  · intro he
    constructor
    · intro api'
      unfold synthesize_audio
      rw [if_pos he, if_pos he]
    · unfold synthesize_audio
      rw [if_pos he]
  · intro hne happ
    unfold synthesize_audio
    rw [if_neg hne, happ]
  · intro r hne happ
    constructor
    · intro hsel
      unfold synthesize_audio
      rw [if_neg hne, happ]
      dsimp only
      rcases hsel with hsel | hsel
      · rw [hsel]
      · rw [hsel]
        dsimp only
        rw [if_pos rfl]
    · intro bs hsel hbs
      unfold synthesize_audio
      rw [if_neg hne, happ]
      dsimp only
      rw [hsel]
      dsimp only
      rw [if_neg hbs]

/-- Witness for C8: a concrete successful synthesis. -/
theorem C8_synthesize_audio_witness :
    synthesize_audio ['h', 'i'] (.ok { content := some [1] }) = .ok [1] :=
  ((C8_synthesize_audio ['h', 'i'] (.ok { content := some [1] })).2.2
    { content := some [1] } (by decide) rfl).2 [1] (by rfl) (by decide)


end GradReader
